import Mathlib

/-!
Consent-string metadata (`vendorconsent/metadata.go`)

A shallow embedding of `parseMetadata` and of the getters of `consentMetadata`.

* A Go `byte` is a `Fin 256`; arithmetic on bytes is done on `Nat` with an explicit
  `% 256` wherever Go truncates to eight bits.
* Go code can fail at run time (index out of range) and the properties of interest
  speak about which bytes are read and which getters are called.  A run is therefore an
  `Exec α`: the ordered log of the events of the run together with its value, `none`
  standing for a run-time panic.
-/

namespace vendorconsent

/-- A Go `byte`. -/
abbrev Byte := Fin 256

/-- The type `consentMetadata []byte`. -/
abbrev consentMetadata := List Byte

/-- Modelled from the spec: the type `consentconstants.Purpose` is declared in another
package of the repository; the spec gives purpose ids as unsigned integers and the
comment in `PurposeAllowed` says they are `uint8` values. -/
abbrev Purpose := Fin 256

/-- The methods of `consentMetadata`. -/
inductive Getter
  | Version
  | CmpID
  | CmpVersion
  | ConsentScreen
  | ConsentLanguage
  | VendorListVersion
  | MaxVendorID
  | PurposeAllowed
  deriving DecidableEq, Repr

/-- What a run does that can be observed: it enters a getter, or it evaluates the index
expression `c[i]`. -/
inductive Event
  | call (g : Getter)
  | index (i : Nat)
  deriving DecidableEq, Repr

/-- A run of Go code: the events in the order they happen, and the value the run
returns (`none` when the run panics). -/
structure Exec (α : Type) where
  log : List Event
  value : Option α

/-- A run that returns at once. -/
def Exec.pure {α : Type} (a : α) : Exec α := ⟨[], some a⟩

/-- Sequencing: a panic in the first run ends the whole run. -/
def Exec.bind {α β : Type} (x : Exec α) (f : α → Exec β) : Exec β :=
  match x.value with
  | none => ⟨x.log, none⟩
  | some a => ⟨x.log ++ (f a).log, (f a).value⟩

instance : Monad Exec where
  pure := Exec.pure
  bind := Exec.bind

/-- The index expression `c[i]`: panics when `i` is not below `len(c)`. -/
def index (c : consentMetadata) (i : Nat) : Exec Nat :=
  ⟨[Event.index i], (c.get? i).map Fin.val⟩

/-- Entering the body of a getter. -/
def enter (g : Getter) : Exec Unit := ⟨[Event.call g], some ()⟩

/-- The standard library's `binary.BigEndian.Uint16([]byte{b0, b1})`, that is
`uint16(b1) | uint16(b0)<<8`. -/
def BigEndian_Uint16 (b0 b1 : Nat) : Nat :=
  (b1 ||| (b0 <<< 8) % 65536) % 65536

/-- Modelled from the spec: `isSet` is a function of package `vendorconsent` declared in
a file that is not among the sources; the spec says that it reads the single bit
`bitIndex` of the buffer, bits being numbered MSB-first, and that it does not defend
against an index past the end of the buffer. -/
def isSet (data : List Byte) (bitIndex : Nat) : Exec Bool := do
  let byteIndex := bitIndex / 8
  let bitOffset := bitIndex % 8
  return ((← index data byteIndex) &&& (0x80 >>> bitOffset)) != 0

/-- Method `func (c consentMetadata) Version() uint8`. -/
def Version (c : consentMetadata) : Exec Nat := do
  enter Getter.Version
  return (← index c 0) >>> 2

/-- Method `func (c consentMetadata) CmpID() uint16`. -/
def CmpID (c : consentMetadata) : Exec Nat := do
  enter Getter.CmpID
  let leftByte := ((((← index c 9) &&& 0x03) <<< 2) % 256) ||| ((← index c 10) >>> 6)
  let rightByte := (((← index c 10) <<< 2) % 256) ||| ((← index c 11) >>> 6)
  return BigEndian_Uint16 leftByte rightByte

/-- Method `func (c consentMetadata) CmpVersion() uint16`. -/
def CmpVersion (c : consentMetadata) : Exec Nat := do
  enter Getter.CmpVersion
  let leftByte := ((← index c 11) >>> 2) &&& 0x0f
  let rightByte := (((← index c 11) <<< 6) % 256) ||| ((← index c 12) >>> 2)
  return BigEndian_Uint16 leftByte rightByte

/-- Method `func (c consentMetadata) ConsentScreen() uint8`. -/
def ConsentScreen (c : consentMetadata) : Exec Nat := do
  enter Getter.ConsentScreen
  return ((((← index c 12) &&& 0x03) <<< 4) % 256) ||| ((← index c 13) >>> 4)

/-- Method `func (c consentMetadata) ConsentLanguage() string`: the string is given by its
bytes. -/
def ConsentLanguage (c : consentMetadata) : Exec (List Nat) := do
  enter Getter.ConsentLanguage
  let leftChar := ((((← index c 13) &&& 0x0f) <<< 2) % 256) ||| ((← index c 14) >>> 6)
  let rightChar := (← index c 14) &&& 0x3f
  return [(leftChar + 65) % 256, (rightChar + 65) % 256]

/-- Method `func (c consentMetadata) VendorListVersion() uint16`. -/
def VendorListVersion (c : consentMetadata) : Exec Nat := do
  enter Getter.VendorListVersion
  let rightByte := (((← index c 16) &&& 0xf0) >>> 4) ||| ((((← index c 15) &&& 0x0f) <<< 4) % 256)
  let leftByte := (← index c 15) >>> 4
  return BigEndian_Uint16 leftByte rightByte

/-- Method `func (c consentMetadata) MaxVendorID() uint16`.  In Go `<<` and `>>` bind tighter
than `+`. -/
def MaxVendorID (c : consentMetadata) : Exec Nat := do
  enter Getter.MaxVendorID
  let leftByte := (((((← index c 19) &&& 0x0f) <<< 4) % 256) + (((← index c 20) &&& 0xf0) >>> 4)) % 256
  let rightByte := (((((← index c 20) &&& 0x0f) <<< 4) % 256) + (((← index c 21) &&& 0xf0) >>> 4)) % 256
  return BigEndian_Uint16 leftByte rightByte

/-- Method `func (c consentMetadata) PurposeAllowed(id consentconstants.Purpose) bool`.  The sum
`uint(id)+131` is computed in `uint`, which is 32 or 64 bits wide; the model takes the
narrower one. -/
def PurposeAllowed (c : consentMetadata) (id : Purpose) : Exec Bool := do
  enter Getter.PurposeAllowed
  isSet c ((id.val + 131) % 2 ^ 32)

/-- The errors `parseMetadata` builds, each with the number its message prints. -/
inductive ParseError
  | tooShort (len : Nat)
  | invalidMaxVendorID (got : Nat)
  | invalidVersion (got : Nat)
  | invalidVendorListVersion
  deriving DecidableEq, Repr

/-- Function `func parseMetadata(data []byte) (consentMetadata, error)`.  The error branches
return a nil metadata, so a failed run carries the error alone. -/
def parseMetadata (data : List Byte) : Exec (Except ParseError consentMetadata) := do
  if data.length < 22 then
    return Except.error (ParseError.tooShort data.length)
  else
    let metadata : consentMetadata := data
    let maxVendorID ← MaxVendorID metadata
    if maxVendorID < 1 then
      let printed ← MaxVendorID metadata
      return Except.error (ParseError.invalidMaxVendorID printed)
    else
      let version ← Version metadata
      if version < 1 then
        let printed ← Version metadata
        return Except.error (ParseError.invalidVersion printed)
      else
        let vendorListVersion ← VendorListVersion metadata
        if vendorListVersion == 0 then
          return Except.error ParseError.invalidVendorListVersion
        else
          return Except.ok data

/-! ## Reading the claims: bytes, bits and bit spans of a buffer -/

/-- The byte `b[i]` as a number (0 past the end; the claims only use it inside the
buffer). -/
def byteAt (b : List Byte) (i : Nat) : Nat := (b.getD i 0).val

/-- Bit number `n` of the buffer, MSB-first: bit 0 is the most significant bit of
byte 0. -/
def bitAt (b : List Byte) (n : Nat) : Bool :=
  (byteAt b (n / 8) / 2 ^ (7 - n % 8)) % 2 == 1

/-- The unsigned integer formed by the `width` bits from bit `start` on, read
MSB-first. -/
def bitsValue (b : List Byte) (start width : Nat) : Nat :=
  (List.range width).foldl (fun acc j => 2 * acc + (bitAt b (start + j)).toNat) 0

/-- The byte indices a run reads, in order. -/
def indicesRead {α : Type} (x : Exec α) : List Nat :=
  x.log.filterMap fun e =>
    match e with
    | Event.index i => some i
    | Event.call _ => none

/-! ## Sample buffers -/

/-- A well-formed header followed by one more byte: version 1, CMP 3 version 8, screen 1,
language "CN", vendor list 15, purposes 5, 6 and 7 allowed, 500 vendors. -/
def sample : List Byte :=
  [0x04, 0xE1, 0x05, 0x99, 0x6B, 0x4E, 0x10, 0x59, 0x96, 0xB4, 0x00, 0xC0, 0x20, 0x10, 0x8D,
   0x00, 0xF0, 0xE0, 0x00, 0x00, 0x1F, 0x40, 0xAA]

/-- The first three bytes of a header. -/
def sampleShort : List Byte := [0x04, 0xE1, 0x05]

/-- A 22-byte header like that of the sample, with the bits 156-171 all zero. -/
def sampleNoVendors : List Byte :=
  [0x04, 0xE1, 0x05, 0x99, 0x6B, 0x4E, 0x10, 0x59, 0x96, 0xB4, 0x00, 0xC0, 0x20, 0x10, 0x8D,
   0x00, 0xF0, 0xE0, 0x00, 0x00, 0x00, 0x0F]

/-- Twenty-two zero bytes: every header field decodes to 0. -/
def sampleAllZero : List Byte := List.replicate 22 0

/-- The sample with the version bits and the vendor list version bits cleared: 500
vendors, version 0, vendor list version 0. -/
def sampleZeroVersion : List Byte :=
  [0x03, 0xE1, 0x05, 0x99, 0x6B, 0x4E, 0x10, 0x59, 0x96, 0xB4, 0x00, 0xC0, 0x20, 0x10, 0x8D,
   0x00, 0x08, 0xE0, 0x00, 0x00, 0x1F, 0x40]

/-- The sample with the vendor list version bits cleared: 500 vendors, version 1, vendor
list version 0. -/
def sampleZeroVendorList : List Byte :=
  [0x04, 0xE1, 0x05, 0x99, 0x6B, 0x4E, 0x10, 0x59, 0x96, 0xB4, 0x00, 0xC0, 0x20, 0x10, 0x8D,
   0x00, 0x08, 0xE0, 0x00, 0x00, 0x1F, 0x40]

/-- A 22-byte buffer that is zero except for the language bits 108 to 119, which hold the
two 6-bit values `x` and `y`. -/
def languageBuffer (x y : Fin 64) : List Byte :=
  List.replicate 13 0 ++ [Fin.ofNat (x.val / 4), Fin.ofNat (x.val % 4 * 64 + y.val)]
    ++ List.replicate 7 0

/-! ## Runs -/

theorem Exec.value_bind {α β : Type} (x : Exec α) (f : α → Exec β) :
    (x >>= f).value = x.value.bind fun a => (f a).value := by
  show (Exec.bind x f).value = _
  unfold Exec.bind
  cases x.value <;> rfl

theorem byteAt_lt (b : List Byte) (i : Nat) : byteAt b i < 256 := (b.getD i 0).isLt

theorem index_eq (b : List Byte) (i : Nat) (h : i < b.length) :
    index b i = ⟨[Event.index i], some (byteAt b i)⟩ := by
  simp [index, byteAt, List.getD, List.getElem?_eq_getElem h]

theorem bitAt_toNat (b : List Byte) (n : Nat) :
    (bitAt b n).toNat = byteAt b (n / 8) / 2 ^ (7 - n % 8) % 2 := by
  unfold bitAt
  rcases Nat.mod_two_eq_zero_or_one (byteAt b (n / 8) / 2 ^ (7 - n % 8)) with h | h <;> simp [h]

/-! ## Byte arithmetic -/

theorem and3 (x : Nat) : x &&& 3 = x % 4 := Nat.and_pow_two_sub_one_eq_mod x 2

theorem and15 (x : Nat) : x &&& 15 = x % 16 := Nat.and_pow_two_sub_one_eq_mod x 4

theorem and63 (x : Nat) : x &&& 63 = x % 64 := Nat.and_pow_two_sub_one_eq_mod x 6

set_option maxRecDepth 100000 in
theorem and240 (x : Nat) (h : x < 256) : x &&& 240 = x / 16 * 16 := by
  have key : ∀ y : Fin 256, y.val &&& 240 = y.val / 16 * 16 := by decide
  exact key ⟨x, h⟩

set_option maxRecDepth 100000 in
/-- The mask test of `isSet` picks the bit at distance `k` from the top of the byte. -/
theorem mask_test (x k : Nat) (hx : x < 256) (hk : k < 8) :
    ((x &&& (0x80 >>> k)) != 0) = (x / 2 ^ (7 - k) % 2 == 1) := by
  have key : ∀ j : Fin 8, ∀ y : Fin 256,
      ((y.val &&& (0x80 >>> j.val)) != 0) = (y.val / 2 ^ (7 - j.val) % 2 == 1) := by decide
  exact key ⟨k, hk⟩ ⟨x, hx⟩

/-- A value below `2 ^ k` or-ed under a multiple of `2 ^ k` is added to it. -/
theorem lor_low (hi lo k : Nat) (h : lo < 2 ^ k) : hi * 2 ^ k ||| lo = hi * 2 ^ k + lo := by
  rw [Nat.mul_comm]
  exact (Nat.mul_add_lt_is_or h hi).symm

theorem shl_lor_shr (x y s t : Nat) (hx : x * 2 ^ s < 256) (hy : y / 2 ^ t < 2 ^ s) :
    (x <<< s) % 256 ||| (y >>> t) = x * 2 ^ s + y / 2 ^ t := by
  rw [Nat.shiftLeft_eq, Nat.shiftRight_eq_div_pow, Nat.mod_eq_of_lt hx]
  exact lor_low x _ s hy

theorem shl_mod (y s r : Nat) (h : 2 ^ s * 2 ^ r = 256) :
    (y <<< s) % 256 = ((y % 2 ^ r) <<< s) % 256 := by
  simp only [Nat.shiftLeft_eq]
  rw [← h, Nat.mul_comm (2 ^ s) (2 ^ r), Nat.mul_mod_mul_right, Nat.mul_mod_mul_right,
    Nat.mod_mod]

theorem BigEndian_Uint16_eq (b0 b1 : Nat) (h0 : b0 < 256) (h1 : b1 < 256) :
    BigEndian_Uint16 b0 b1 = b0 * 256 + b1 := by
  unfold BigEndian_Uint16
  rw [Nat.shiftLeft_eq, Nat.mod_eq_of_lt (by omega : b0 * 2 ^ 8 < 65536), Nat.lor_comm,
    lor_low b0 b1 8 (by omega)]
  omega

theorem cmpID_bytes (x y z : Nat) (hy : y < 256) (hz : z < 256) :
    BigEndian_Uint16 (((x &&& 0x03) <<< 2) % 256 ||| (y >>> 6)) ((y <<< 2) % 256 ||| (z >>> 6))
      = x % 4 * 1024 + y * 4 + z / 64 := by
  have hl : ((x &&& 0x03) <<< 2) % 256 ||| (y >>> 6) = x % 4 * 2 ^ 2 + y / 2 ^ 6 := by
    rw [and3]
    exact shl_lor_shr (x % 4) y 2 6 (by omega) (by omega)
  have hr : (y <<< 2) % 256 ||| (z >>> 6) = y % 2 ^ 6 * 2 ^ 2 + z / 2 ^ 6 := by
    rw [shl_mod y 2 6 (by norm_num)]
    exact shl_lor_shr (y % 2 ^ 6) z 2 6 (by omega) (by omega)
  rw [hl, hr, BigEndian_Uint16_eq _ _ (by omega) (by omega)]
  omega

theorem cmpVersion_bytes (x y : Nat) (hy : y < 256) :
    BigEndian_Uint16 ((x >>> 2) &&& 0x0f) ((x <<< 6) % 256 ||| (y >>> 2))
      = x % 64 * 64 + y / 4 := by
  have hl : (x >>> 2) &&& 0x0f = x / 2 ^ 2 % 16 := by
    rw [and15, Nat.shiftRight_eq_div_pow]
  have hr : (x <<< 6) % 256 ||| (y >>> 2) = x % 2 ^ 2 * 2 ^ 6 + y / 2 ^ 2 := by
    rw [shl_mod x 6 2 (by norm_num)]
    exact shl_lor_shr (x % 2 ^ 2) y 6 2 (by omega) (by omega)
  rw [hl, hr, BigEndian_Uint16_eq _ _ (by omega) (by omega)]
  omega

theorem consentScreen_bytes (x y : Nat) (hy : y < 256) :
    ((x &&& 0x03) <<< 4) % 256 ||| (y >>> 4) = x % 4 * 16 + y / 16 := by
  rw [and3]
  exact shl_lor_shr (x % 4) y 4 4 (by omega) (by omega)

theorem consentLanguage_left (x y : Nat) (hy : y < 256) :
    ((x &&& 0x0f) <<< 2) % 256 ||| (y >>> 6) = x % 16 * 4 + y / 64 := by
  rw [and15]
  exact shl_lor_shr (x % 16) y 2 6 (by omega) (by omega)

theorem vendorListVersion_bytes (y z : Nat) (hy : y < 256) (hz : z < 256) :
    BigEndian_Uint16 (y >>> 4) (((z &&& 0xf0) >>> 4) ||| (((y &&& 0x0f) <<< 4) % 256))
      = y * 16 + z / 16 := by
  have hr : ((z &&& 0xf0) >>> 4) ||| (((y &&& 0x0f) <<< 4) % 256)
      = y % 16 * 2 ^ 4 + z / 2 ^ 4 := by
    rw [Nat.lor_comm, and15, and240 z hz, Nat.shiftRight_eq_div_pow,
      Nat.shiftLeft_eq, Nat.mod_eq_of_lt (by omega),
      show z / 16 * 16 / 2 ^ 4 = z / 2 ^ 4 by omega]
    exact lor_low (y % 16) _ 4 (by omega)
  rw [hr, Nat.shiftRight_eq_div_pow, BigEndian_Uint16_eq _ _ (by omega) (by omega)]
  omega

/-- The sum in `MaxVendorID`: the two nibbles do not overlap, so it stays in a byte. -/
theorem nibble_sum (x y : Nat) (hy : y < 256) :
    ((x &&& 0x0f) <<< 4) % 256 + ((y &&& 0xf0) >>> 4) = x % 16 * 16 + y / 16 := by
  rw [and15, and240 y hy, Nat.shiftRight_eq_div_pow, Nat.shiftLeft_eq,
    Nat.mod_eq_of_lt (by omega)]
  omega

theorem maxVendorID_bytes (x y z : Nat) (hy : y < 256) (hz : z < 256) :
    BigEndian_Uint16 ((((x &&& 0x0f) <<< 4) % 256 + ((y &&& 0xf0) >>> 4)) % 256)
        ((((y &&& 0x0f) <<< 4) % 256 + ((z &&& 0xf0) >>> 4)) % 256)
      = x % 16 * 4096 + y * 16 + z / 16 := by
  rw [nibble_sum x y hy, nibble_sum y z hz, BigEndian_Uint16_eq _ _ (by omega) (by omega)]
  omega

/-! ## The run of each getter on a long enough buffer -/

theorem Version_run (b : List Byte) (h : 1 ≤ b.length) :
    Version b = ⟨[Event.call Getter.Version, Event.index 0], some (byteAt b 0 / 4)⟩ := by
  have key : Version b
      = ⟨[Event.call Getter.Version, Event.index 0], some (byteAt b 0 >>> 2)⟩ := by
    simp only [Version, index_eq b 0 (by omega)]
    rfl
  rw [key, Nat.shiftRight_eq_div_pow]

theorem CmpID_run (b : List Byte) (h : 12 ≤ b.length) :
    CmpID b = ⟨[Event.call Getter.CmpID, Event.index 9, Event.index 10, Event.index 10,
        Event.index 11],
      some (byteAt b 9 % 4 * 1024 + byteAt b 10 * 4 + byteAt b 11 / 64)⟩ := by
  rw [← cmpID_bytes _ _ _ (byteAt_lt b 10) (byteAt_lt b 11)]
  simp only [CmpID, index_eq b 9 (by omega), index_eq b 10 (by omega), index_eq b 11 (by omega)]
  rfl

theorem CmpVersion_run (b : List Byte) (h : 13 ≤ b.length) :
    CmpVersion b = ⟨[Event.call Getter.CmpVersion, Event.index 11, Event.index 11,
        Event.index 12],
      some (byteAt b 11 % 64 * 64 + byteAt b 12 / 4)⟩ := by
  rw [← cmpVersion_bytes _ _ (byteAt_lt b 12)]
  simp only [CmpVersion, index_eq b 11 (by omega), index_eq b 12 (by omega)]
  rfl

theorem ConsentScreen_run (b : List Byte) (h : 14 ≤ b.length) :
    ConsentScreen b = ⟨[Event.call Getter.ConsentScreen, Event.index 12, Event.index 13],
      some (byteAt b 12 % 4 * 16 + byteAt b 13 / 16)⟩ := by
  rw [← consentScreen_bytes _ _ (byteAt_lt b 13)]
  simp only [ConsentScreen, index_eq b 12 (by omega), index_eq b 13 (by omega)]
  rfl

theorem ConsentLanguage_run (b : List Byte) (h : 15 ≤ b.length) :
    ConsentLanguage b = ⟨[Event.call Getter.ConsentLanguage, Event.index 13, Event.index 14,
        Event.index 14],
      some [byteAt b 13 % 16 * 4 + byteAt b 14 / 64 + 65, byteAt b 14 % 64 + 65]⟩ := by
  have h13 := byteAt_lt b 13
  have h14 := byteAt_lt b 14
  rw [← Nat.mod_eq_of_lt (by omega : byteAt b 13 % 16 * 4 + byteAt b 14 / 64 + 65 < 256),
    ← Nat.mod_eq_of_lt (by omega : byteAt b 14 % 64 + 65 < 256),
    ← consentLanguage_left _ _ h14, ← and63]
  simp only [ConsentLanguage, index_eq b 13 (by omega), index_eq b 14 (by omega)]
  rfl

theorem VendorListVersion_run (b : List Byte) (h : 17 ≤ b.length) :
    VendorListVersion b = ⟨[Event.call Getter.VendorListVersion, Event.index 16,
        Event.index 15, Event.index 15],
      some (byteAt b 15 * 16 + byteAt b 16 / 16)⟩ := by
  rw [← vendorListVersion_bytes _ _ (byteAt_lt b 15) (byteAt_lt b 16)]
  simp only [VendorListVersion, index_eq b 15 (by omega), index_eq b 16 (by omega)]
  rfl

theorem MaxVendorID_run (b : List Byte) (h : 22 ≤ b.length) :
    MaxVendorID b = ⟨[Event.call Getter.MaxVendorID, Event.index 19, Event.index 20,
        Event.index 20, Event.index 21],
      some (byteAt b 19 % 16 * 4096 + byteAt b 20 * 16 + byteAt b 21 / 16)⟩ := by
  rw [← maxVendorID_bytes _ _ _ (byteAt_lt b 20) (byteAt_lt b 21)]
  simp only [MaxVendorID, index_eq b 19 (by omega), index_eq b 20 (by omega),
    index_eq b 21 (by omega)]
  rfl

theorem isSet_run (b : List Byte) (n : Nat) (h : n / 8 < b.length) :
    isSet b n = ⟨[Event.index (n / 8)], some (bitAt b n)⟩ := by
  have key : isSet b n
      = ⟨[Event.index (n / 8)], some ((byteAt b (n / 8) &&& (0x80 >>> (n % 8))) != 0)⟩ := by
    simp only [isSet, index_eq b (n / 8) h]
    rfl
  rw [key, mask_test _ _ (byteAt_lt b _) (Nat.mod_lt _ (by norm_num))]
  rfl

theorem PurposeAllowed_run (b : List Byte) (id : Purpose) (h : (id.val + 131) / 8 < b.length) :
    PurposeAllowed b id = ⟨[Event.call Getter.PurposeAllowed, Event.index ((id.val + 131) / 8)],
      some (bitAt b (id.val + 131))⟩ := by
  have e : (id.val + 131) % 2 ^ 32 = id.val + 131 := Nat.mod_eq_of_lt (by have := id.isLt; omega)
  simp only [PurposeAllowed, e, isSet_run b _ h]
  rfl

/-! ## The run of parseMetadata -/

theorem parseMetadata_short (b : List Byte) (h : b.length < 22) :
    parseMetadata b = ⟨[], some (Except.error (ParseError.tooShort b.length))⟩ := by
  unfold parseMetadata
  rw [if_pos h]
  rfl

theorem parseMetadata_value (b : List Byte) (h : 22 ≤ b.length) (mv ver vlv : Nat)
    (h1 : (MaxVendorID b).value = some mv) (h2 : (Version b).value = some ver)
    (h3 : (VendorListVersion b).value = some vlv) :
    (parseMetadata b).value = some
      (if mv < 1 then Except.error (ParseError.invalidMaxVendorID mv)
       else if ver < 1 then Except.error (ParseError.invalidVersion ver)
       else if vlv = 0 then Except.error ParseError.invalidVendorListVersion
       else Except.ok b) := by
  unfold parseMetadata
  rw [if_neg (Nat.not_lt.2 h)]
  by_cases c1 : mv = 0
  · simp [Exec.value_bind, h1, c1]
    rfl
  · by_cases c2 : ver = 0
    · simp [Exec.value_bind, h1, h2, c1, c2]
      rfl
    · by_cases c3 : vlv = 0
      · simp [Exec.value_bind, h1, h2, h3, c1, c2, c3]
        rfl
      · simp [Exec.value_bind, h1, h2, h3, c1, c2, c3]
        rfl

/-- Success of `parseMetadata` in terms of the bytes of the buffer. -/
theorem parseMetadata_ok_bytes (b m : List Byte) :
    (parseMetadata b).value = some (Except.ok m) ↔
      m = b ∧ 22 ≤ b.length ∧
        1 ≤ byteAt b 19 % 16 * 4096 + byteAt b 20 * 16 + byteAt b 21 / 16 ∧
        1 ≤ byteAt b 0 / 4 ∧ 1 ≤ byteAt b 15 * 16 + byteAt b 16 / 16 := by
  by_cases h : 22 ≤ b.length
  · rw [parseMetadata_value b h _ _ _ (congrArg Exec.value (MaxVendorID_run b h))
      (congrArg Exec.value (Version_run b (by omega)))
      (congrArg Exec.value (VendorListVersion_run b (by omega)))]
    generalize byteAt b 19 % 16 * 4096 + byteAt b 20 * 16 + byteAt b 21 / 16 = mv
    generalize byteAt b 0 / 4 = ver
    generalize byteAt b 15 * 16 + byteAt b 16 / 16 = vlv
    split_ifs with c1 c2 c3
    · simp; omega
    · simp; omega
    · simp; omega
    · simp only [Option.some.injEq, Except.ok.injEq]
      constructor
      · intro e; exact ⟨e.symm, h, by omega, by omega, by omega⟩
      · intro e; exact e.1.symm
  · rw [parseMetadata_short b (by omega)]
    simp
    omega

/-- The three header invariants in terms of the bytes of the buffer. -/
theorem invariants_bytes (b : List Byte) (h : 22 ≤ b.length) :
    ((∃ v, (MaxVendorID b).value = some v ∧ 1 ≤ v) ∧
        (∃ v, (Version b).value = some v ∧ 1 ≤ v) ∧
        (∃ v, (VendorListVersion b).value = some v ∧ 1 ≤ v)) ↔
      1 ≤ byteAt b 19 % 16 * 4096 + byteAt b 20 * 16 + byteAt b 21 / 16 ∧
        1 ≤ byteAt b 0 / 4 ∧ 1 ≤ byteAt b 15 * 16 + byteAt b 16 / 16 := by
  rw [MaxVendorID_run b h, Version_run b (by omega), VendorListVersion_run b (by omega)]
  simp

/-- The shift and the sum of `MaxVendorID`, untruncated: both stay in a byte and the sum
adds two numbers without a common bit. -/
theorem nibble_sum_no_carry (x y : Nat) (hy : y < 256) :
    (x &&& 0x0f) <<< 4 < 256 ∧ (x &&& 0x0f) <<< 4 + (y &&& 0xf0) >>> 4 < 256 ∧
      (x &&& 0x0f) <<< 4 + (y &&& 0xf0) >>> 4 = (x &&& 0x0f) <<< 4 ||| (y &&& 0xf0) >>> 4 := by
  rw [and15, and240 y hy, Nat.shiftRight_eq_div_pow, Nat.shiftLeft_eq,
    lor_low (x % 16) _ 4 (by omega)]
  omega

/-! ## Bit spans -/

theorem bitAt_byte (b : List Byte) (i k : Nat) (hk : k < 8) :
    (bitAt b (8 * i + k)).toNat = byteAt b i / 2 ^ (7 - k) % 2 := by
  rw [bitAt_toNat, show (8 * i + k) / 8 = i by omega, show (8 * i + k) % 8 = k by omega]

theorem bitsValue_zero (b : List Byte) (s : Nat) : bitsValue b s 0 = 0 := rfl

theorem bitsValue_succ (b : List Byte) (s w : Nat) :
    bitsValue b s (w + 1) = 2 * bitsValue b s w + (bitAt b (s + w)).toNat := by
  simp [bitsValue, List.range_succ]

/-- A span is its leading part shifted left, plus the rest. -/
theorem bitsValue_add (b : List Byte) (s w v : Nat) :
    bitsValue b s (w + v) = bitsValue b s w * 2 ^ v + bitsValue b (s + w) v := by
  induction v with
  | zero => simp [bitsValue_zero]
  | succ v ih =>
    rw [← Nat.add_assoc, bitsValue_succ, ih, bitsValue_succ, Nat.add_assoc s w v]
    ring

/-- A span inside one byte, in terms of that byte. -/
theorem bitsValue_in_byte (b : List Byte) (i k w : Nat) (h : k + w ≤ 8) :
    bitsValue b (8 * i + k) w = byteAt b i / 2 ^ (8 - k - w) % 2 ^ w := by
  induction w with
  | zero => simp [bitsValue_zero, Nat.mod_one]
  | succ w ih =>
    rw [bitsValue_succ, ih (by omega), Nat.add_assoc, bitAt_byte b i (k + w) (by omega),
      show 8 - k - w = (8 - k - (w + 1)) + 1 by omega, show 7 - (k + w) = 8 - k - (w + 1) by omega,
      Nat.pow_succ, ← Nat.div_div_eq_div_mul, Nat.pow_succ, Nat.mul_comm (2 ^ w) 2,
      Nat.mod_mul]
    omega

/-- A span only depends on the bits it covers. -/
theorem bitsValue_congr (b c : List Byte) (s w : Nat)
    (h : ∀ j, j < w → bitAt c (s + j) = bitAt b (s + j)) :
    bitsValue c s w = bitsValue b s w := by
  induction w with
  | zero => rfl
  | succ w ih =>
    rw [bitsValue_succ, bitsValue_succ, ih fun j hj => h j (by omega), h w (by omega)]

/-- Two buffers with the same top four bits in byte `i` have the same high nibble there. -/
theorem nibble_eq_of_bits (b c : List Byte) (i : Nat)
    (h : ∀ k, k < 4 → bitAt c (8 * i + k) = bitAt b (8 * i + k)) :
    byteAt c i / 16 = byteAt b i / 16 := by
  have e := bitsValue_congr b c (8 * i + 0) 4 fun j hj => h j hj
  rw [bitsValue_in_byte _ _ _ _ (by omega), bitsValue_in_byte _ _ _ _ (by omega)] at e
  have hb := byteAt_lt b i
  have hc := byteAt_lt c i
  simp only [Nat.reduceSub, Nat.reducePow] at e
  omega

/-- Two buffers with the same eight bits in byte `i` have the same byte there. -/
theorem byteAt_eq_of_bits (b c : List Byte) (i : Nat)
    (h : ∀ k, k < 8 → bitAt c (8 * i + k) = bitAt b (8 * i + k)) :
    byteAt c i = byteAt b i := by
  have e := bitsValue_congr b c (8 * i + 0) 8 fun j hj => h j hj
  rw [bitsValue_in_byte _ _ _ _ (by omega), bitsValue_in_byte _ _ _ _ (by omega)] at e
  have hb := byteAt_lt b i
  have hc := byteAt_lt c i
  simp only [Nat.reduceSub, Nat.reducePow, Nat.div_one] at e
  omega

/-- Agreement on the bits 0 to 171 is agreement on the bytes 0 to 20. -/
theorem byteAt_eq_of_header_bits (b c : List Byte)
    (h : ∀ n, n ≤ 171 → bitAt c n = bitAt b n) (i : Nat) (hi : i ≤ 20) :
    byteAt c i = byteAt b i :=
  byteAt_eq_of_bits b c i fun k hk => h (8 * i + k) (by omega)

/-- The bits 156 to 171. -/
theorem span_maxVendorID (b : List Byte) :
    bitsValue b 156 16 = byteAt b 19 % 16 * 4096 + byteAt b 20 * 16 + byteAt b 21 / 16 := by
  have e : bitsValue b 156 16 = bitsValue b (8 * 19 + 4) (4 + (8 + 4)) := rfl
  rw [e, bitsValue_add, bitsValue_add, bitsValue_in_byte b 19 4 4 (by omega),
    show 8 * 19 + 4 + 4 = 8 * 20 + 0 from rfl, bitsValue_in_byte b 20 0 8 (by omega),
    show 8 * 20 + 0 + 8 = 8 * 21 + 0 from rfl, bitsValue_in_byte b 21 0 4 (by omega)]
  have h20 := byteAt_lt b 20
  have h21 := byteAt_lt b 21
  simp only [Nat.reduceSub, Nat.reducePow, Nat.div_one]
  omega

/-- The bits 78 to 89. -/
theorem span_cmpID (b : List Byte) :
    bitsValue b 78 12 = byteAt b 9 % 4 * 1024 + byteAt b 10 * 4 + byteAt b 11 / 64 := by
  have e : bitsValue b 78 12 = bitsValue b (8 * 9 + 6) (2 + (8 + 2)) := rfl
  rw [e, bitsValue_add, bitsValue_add, bitsValue_in_byte b 9 6 2 (by omega),
    show 8 * 9 + 6 + 2 = 8 * 10 + 0 from rfl, bitsValue_in_byte b 10 0 8 (by omega),
    show 8 * 10 + 0 + 8 = 8 * 11 + 0 from rfl, bitsValue_in_byte b 11 0 2 (by omega)]
  have h10 := byteAt_lt b 10
  have h11 := byteAt_lt b 11
  simp only [Nat.reduceSub, Nat.reducePow, Nat.div_one]
  omega

/-- The bits 90 to 101. -/
theorem span_cmpVersion (b : List Byte) :
    bitsValue b 90 12 = byteAt b 11 % 64 * 64 + byteAt b 12 / 4 := by
  have e : bitsValue b 90 12 = bitsValue b (8 * 11 + 2) (6 + 6) := rfl
  rw [e, bitsValue_add, bitsValue_in_byte b 11 2 6 (by omega),
    show 8 * 11 + 2 + 6 = 8 * 12 + 0 from rfl, bitsValue_in_byte b 12 0 6 (by omega)]
  have h12 := byteAt_lt b 12
  simp only [Nat.reduceSub, Nat.reducePow, Nat.div_one]
  omega

/-- The bits 120 to 131. -/
theorem span_vendorListVersion (b : List Byte) :
    bitsValue b 120 12 = byteAt b 15 * 16 + byteAt b 16 / 16 := by
  have e : bitsValue b 120 12 = bitsValue b (8 * 15 + 0) (8 + 4) := rfl
  rw [e, bitsValue_add, bitsValue_in_byte b 15 0 8 (by omega),
    show 8 * 15 + 0 + 8 = 8 * 16 + 0 from rfl, bitsValue_in_byte b 16 0 4 (by omega)]
  have h15 := byteAt_lt b 15
  have h16 := byteAt_lt b 16
  simp only [Nat.reduceSub, Nat.reducePow, Nat.div_one]
  omega

/-- The bits 0 to 5. -/
theorem span_version (b : List Byte) : bitsValue b 0 6 = byteAt b 0 / 4 := by
  have e : bitsValue b 0 6 = bitsValue b (8 * 0 + 0) 6 := rfl
  rw [e, bitsValue_in_byte b 0 0 6 (by omega)]
  have h0 := byteAt_lt b 0
  simp only [Nat.reduceSub, Nat.reducePow]
  omega

/-- The bits 102 to 107. -/
theorem span_consentScreen (b : List Byte) :
    bitsValue b 102 6 = byteAt b 12 % 4 * 16 + byteAt b 13 / 16 := by
  have e : bitsValue b 102 6 = bitsValue b (8 * 12 + 6) (2 + 4) := rfl
  rw [e, bitsValue_add, bitsValue_in_byte b 12 6 2 (by omega),
    show 8 * 12 + 6 + 2 = 8 * 13 + 0 from rfl, bitsValue_in_byte b 13 0 4 (by omega)]
  have h13 := byteAt_lt b 13
  simp only [Nat.reduceSub, Nat.reducePow, Nat.div_one]
  omega

/-- The bits 108 to 113. -/
theorem span_languageLeft (b : List Byte) :
    bitsValue b 108 6 = byteAt b 13 % 16 * 4 + byteAt b 14 / 64 := by
  have e : bitsValue b 108 6 = bitsValue b (8 * 13 + 4) (4 + 2) := rfl
  rw [e, bitsValue_add, bitsValue_in_byte b 13 4 4 (by omega),
    show 8 * 13 + 4 + 4 = 8 * 14 + 0 from rfl, bitsValue_in_byte b 14 0 2 (by omega)]
  have h14 := byteAt_lt b 14
  simp only [Nat.reduceSub, Nat.reducePow, Nat.div_one]
  omega

/-- The bits 114 to 119. -/
theorem span_languageRight (b : List Byte) : bitsValue b 114 6 = byteAt b 14 % 64 := by
  have e : bitsValue b 114 6 = bitsValue b (8 * 14 + 2) 6 := rfl
  rw [e, bitsValue_in_byte b 14 2 6 (by omega)]
  simp only [Nat.reduceSub, Nat.reducePow, Nat.div_one]

/-- The value of ConsentLanguage in terms of the two 6-bit spans. -/
theorem ConsentLanguage_spans (b : List Byte) (h : 15 ≤ b.length) :
    (ConsentLanguage b).value = some [65 + bitsValue b 108 6, 65 + bitsValue b 114 6] := by
  rw [ConsentLanguage_run b h, span_languageLeft, span_languageRight, Nat.add_comm 65,
    Nat.add_comm 65]

/-- The outcome of `parseMetadata` on a buffer of at least 22 bytes, in terms of its
bytes. -/
theorem parseMetadata_bytes (b : List Byte) (h : 22 ≤ b.length) :
    (parseMetadata b).value = some
      (if byteAt b 19 % 16 * 4096 + byteAt b 20 * 16 + byteAt b 21 / 16 < 1 then
        Except.error (ParseError.invalidMaxVendorID
          (byteAt b 19 % 16 * 4096 + byteAt b 20 * 16 + byteAt b 21 / 16))
       else if byteAt b 0 / 4 < 1 then Except.error (ParseError.invalidVersion (byteAt b 0 / 4))
       else if byteAt b 15 * 16 + byteAt b 16 / 16 = 0 then
        Except.error ParseError.invalidVendorListVersion
       else Except.ok b) :=
  parseMetadata_value b h _ _ _ (congrArg Exec.value (MaxVendorID_run b h))
    (congrArg Exec.value (Version_run b (by omega)))
    (congrArg Exec.value (VendorListVersion_run b (by omega)))

/-! ## Buffers with the same first bytes -/

theorem byteAt_take (b : List Byte) (n i : Nat) (hi : i < n) :
    byteAt (b.take n) i = byteAt b i := by
  simp [byteAt, List.getD_eq_getElem?_getD, List.getElem?_take, hi]

theorem byteAt_eq_of_take (b c : List Byte) (n i : Nat) (e : c.take n = b.take n)
    (hi : i < n) : byteAt c i = byteAt b i := by
  rw [← byteAt_take c n i hi, e, byteAt_take b n i hi]

/-- The getters and parseMetadata on two buffers of at least 22 bytes with the same first
22 bytes. -/
theorem runs_eq_of_take_eq (b c : List Byte) (hb : 22 ≤ b.length) (hc : 22 ≤ c.length)
    (e : c.take 22 = b.take 22) :
    Version c = Version b ∧ CmpID c = CmpID b ∧ CmpVersion c = CmpVersion b ∧
      ConsentScreen c = ConsentScreen b ∧ ConsentLanguage c = ConsentLanguage b ∧
      VendorListVersion c = VendorListVersion b ∧ MaxVendorID c = MaxVendorID b ∧
      (∀ id : Purpose, id.val ≤ 44 → PurposeAllowed c id = PurposeAllowed b id) ∧
      ((parseMetadata c).value = some (Except.ok c) ↔
        (parseMetadata b).value = some (Except.ok b)) ∧
      ∀ err, (parseMetadata c).value = some (Except.error err) ↔
        (parseMetadata b).value = some (Except.error err) := by
  have hbyte : ∀ i, i < 22 → byteAt c i = byteAt b i := fun i hi =>
    byteAt_eq_of_take b c 22 i e hi
  refine ⟨?_, ?_, ?_, ?_, ?_, ?_, ?_, ?_, ?_, ?_⟩
  · rw [Version_run b (by omega), Version_run c (by omega), hbyte 0 (by omega)]
  · rw [CmpID_run b (by omega), CmpID_run c (by omega), hbyte 9 (by omega),
      hbyte 10 (by omega), hbyte 11 (by omega)]
  · rw [CmpVersion_run b (by omega), CmpVersion_run c (by omega), hbyte 11 (by omega),
      hbyte 12 (by omega)]
  · rw [ConsentScreen_run b (by omega), ConsentScreen_run c (by omega), hbyte 12 (by omega),
      hbyte 13 (by omega)]
  · rw [ConsentLanguage_run b (by omega), ConsentLanguage_run c (by omega),
      hbyte 13 (by omega), hbyte 14 (by omega)]
  · rw [VendorListVersion_run b (by omega), VendorListVersion_run c (by omega),
      hbyte 15 (by omega), hbyte 16 (by omega)]
  · rw [MaxVendorID_run b hb, MaxVendorID_run c hc, hbyte 19 (by omega), hbyte 20 (by omega),
      hbyte 21 (by omega)]
  · intro id hid
    rw [PurposeAllowed_run b id (by omega), PurposeAllowed_run c id (by omega)]
    simp only [bitAt, hbyte ((id.val + 131) / 8) (by omega)]
  · rw [parseMetadata_bytes b hb, parseMetadata_bytes c hc, hbyte 0 (by omega),
      hbyte 15 (by omega), hbyte 16 (by omega), hbyte 19 (by omega), hbyte 20 (by omega),
      hbyte 21 (by omega)]
    split_ifs <;> simp
  · intro err
    rw [parseMetadata_bytes b hb, parseMetadata_bytes c hc, hbyte 0 (by omega),
      hbyte 15 (by omega), hbyte 16 (by omega), hbyte 19 (by omega), hbyte 20 (by omega),
      hbyte 21 (by omega)]
    split_ifs <;> simp

/-! ## Single bits of a span, and reads past the end -/

theorem toNat_beq_one (x : Bool) : (x.toNat == 1) = x := by
  cases x <;> rfl

/-- Bit `j` of a span, counted from its most significant bit, is the bit `start + j` of the
buffer. -/
theorem bitsValue_bit (b : List Byte) (s w j : Nat) (hj : j < w) :
    bitsValue b s w / 2 ^ (w - 1 - j) % 2 = (bitAt b (s + j)).toNat := by
  induction w with
  | zero => omega
  | succ w ih =>
    rw [bitsValue_succ]
    have hbit : (bitAt b (s + w)).toNat ≤ 1 := by
      cases bitAt b (s + w) <;> simp
    rcases Nat.lt_succ_iff_lt_or_eq.1 hj with hlt | heq
    · have e : w + 1 - 1 - j = (w - 1 - j) + 1 := by omega
      rw [e, Nat.pow_succ, Nat.mul_comm (2 ^ (w - 1 - j)) 2, ← Nat.div_div_eq_div_mul,
        show (2 * bitsValue b s w + (bitAt b (s + w)).toNat) / 2 = bitsValue b s w by omega]
      exact ih hlt
    · subst heq
      rw [show j + 1 - 1 - j = 0 by omega, Nat.pow_zero, Nat.div_one]
      omega

/-- A span that is not zero has a bit that is set. -/
theorem exists_bit_of_bitsValue_pos (b : List Byte) (s w : Nat) (h : 0 < bitsValue b s w) :
    ∃ j, j < w ∧ bitAt b (s + j) = true := by
  induction w with
  | zero => rw [bitsValue_zero] at h; omega
  | succ w ih =>
    rw [bitsValue_succ] at h
    by_cases hb : bitAt b (s + w) = true
    · exact ⟨w, by omega, hb⟩
    · have hz : (bitAt b (s + w)).toNat = 0 := by
        simp only [Bool.not_eq_true] at hb
        rw [hb]; rfl
      obtain ⟨j, hj, hbit⟩ := ih (by omega)
      exact ⟨j, by omega, hbit⟩

theorem index_out (b : List Byte) (i : Nat) (h : b.length ≤ i) :
    index b i = ⟨[Event.index i], none⟩ := by
  simp [index, List.getElem?_eq_none h]

theorem PurposeAllowed_run_out (b : List Byte) (id : Purpose)
    (h : b.length ≤ (id.val + 131) / 8) :
    PurposeAllowed b id
      = ⟨[Event.call Getter.PurposeAllowed, Event.index ((id.val + 131) / 8)], none⟩ := by
  have e : (id.val + 131) % 2 ^ 32 = id.val + 131 := Nat.mod_eq_of_lt (by have := id.isLt; omega)
  simp only [PurposeAllowed, isSet, e, index_out b _ h]
  rfl

/-! ## The claims -/

/-- C1: parseMetadata succeeds exactly on the buffers of at least 22 bytes whose
MaxVendorID, Version and VendorListVersion are all at least 1; the metadata it returns is
the buffer itself, so the three header invariants hold of every metadata it returns. -/
theorem parseMetadata_ok_iff (b : List Byte) :
    ((∃ m, (parseMetadata b).value = some (Except.ok m)) ↔
      22 ≤ b.length ∧ (∃ v, (MaxVendorID b).value = some v ∧ 1 ≤ v) ∧
        (∃ v, (Version b).value = some v ∧ 1 ≤ v) ∧
        (∃ v, (VendorListVersion b).value = some v ∧ 1 ≤ v)) ∧
    ∀ m, (parseMetadata b).value = some (Except.ok m) →
      m = b ∧ 22 ≤ m.length ∧ (∃ v, (MaxVendorID m).value = some v ∧ 1 ≤ v) ∧
        (∃ v, (Version m).value = some v ∧ 1 ≤ v) ∧
        (∃ v, (VendorListVersion m).value = some v ∧ 1 ≤ v) := by
  refine ⟨⟨?_, ?_⟩, ?_⟩
  · rintro ⟨m, hm⟩
    obtain ⟨-, h, hv⟩ := (parseMetadata_ok_bytes b m).1 hm
    exact ⟨h, (invariants_bytes b h).2 hv⟩
  · rintro ⟨h, hv⟩
    exact ⟨b, (parseMetadata_ok_bytes b b).2 ⟨rfl, h, (invariants_bytes b h).1 hv⟩⟩
  · intro m hm
    obtain ⟨rfl, h, hv⟩ := (parseMetadata_ok_bytes b m).1 hm
    exact ⟨rfl, h, (invariants_bytes m h).2 hv⟩

theorem parseMetadata_ok_iff_witness :
    (parseMetadata sample).value = some (Except.ok sample) ∧
      (MaxVendorID sample).value = some 500 ∧ (Version sample).value = some 1 ∧
      (VendorListVersion sample).value = some 15 :=
  have ok := (parseMetadata_ok_iff sample).1.2
    ⟨by decide, ⟨500, by decide, by decide⟩, ⟨1, by decide, by decide⟩, ⟨15, by decide, by decide⟩⟩
  ⟨ok.elim fun m hm => ((parseMetadata_ok_iff sample).2 m hm).1 ▸ hm, by decide, by decide,
    by decide⟩

/-- C2: on a buffer of fewer than 22 bytes, the empty one included, parseMetadata fails
with the too-short error carrying the length of the buffer, and its run has no event: no
getter is entered and no byte is read. -/
theorem parseMetadata_too_short (b : List Byte) (h : b.length < 22) :
    (parseMetadata b).value = some (Except.error (ParseError.tooShort b.length)) ∧
      (parseMetadata b).log = [] ∧
      (∀ g, Event.call g ∉ (parseMetadata b).log) ∧
      (parseMetadata []).value = some (Except.error (ParseError.tooShort 0)) := by
  rw [parseMetadata_short b h, parseMetadata_short [] (by decide)]
  simp

theorem parseMetadata_too_short_witness :
    sampleShort.length < 22 ∧
      (parseMetadata sampleShort).value = some (Except.error (ParseError.tooShort 3)) ∧
      (parseMetadata sampleShort).log = [] :=
  ⟨by decide, (parseMetadata_too_short sampleShort (by decide)).1,
    (parseMetadata_too_short sampleShort (by decide)).2.1⟩

/-- C3: on a buffer of at least 22 bytes whose MaxVendorID decodes to 0, parseMetadata
fails with the invalid-MaxVendorID error (printing 0) and returns no metadata, whatever
the other header fields hold. -/
theorem parseMetadata_zero_maxVendorID (b : List Byte) (h : 22 ≤ b.length)
    (h0 : (MaxVendorID b).value = some 0) :
    (parseMetadata b).value = some (Except.error (ParseError.invalidMaxVendorID 0)) ∧
      ∀ m, (parseMetadata b).value ≠ some (Except.ok m) := by
  have e := parseMetadata_value b h 0 _ _ h0 (congrArg Exec.value (Version_run b (by omega)))
    (congrArg Exec.value (VendorListVersion_run b (by omega)))
  rw [e]
  simp

theorem parseMetadata_zero_maxVendorID_witness :
    22 ≤ sampleNoVendors.length ∧ (MaxVendorID sampleNoVendors).value = some 0 ∧
      (Version sampleNoVendors).value = some 1 ∧
      (VendorListVersion sampleNoVendors).value = some 15 ∧
      (parseMetadata sampleNoVendors).value
        = some (Except.error (ParseError.invalidMaxVendorID 0)) :=
  ⟨by decide, by decide, by decide, by decide,
    (parseMetadata_zero_maxVendorID sampleNoVendors (by decide) (by decide)).1⟩

/-- C4: on a buffer that parseMetadata accepts, every getter, and PurposeAllowed for the
ids 1 to 24, returns without a panic and reads byte indices of at most 21 only; what they
return is fixed by the bits 0 to 171 of the buffer. -/
theorem getters_within_header (b m : List Byte)
    (h : (parseMetadata b).value = some (Except.ok m)) :
    m = b ∧ 22 ≤ m.length ∧
    ((Version m).value.isSome ∧ ∀ i ∈ indicesRead (Version m), i ≤ 21) ∧
    ((CmpID m).value.isSome ∧ ∀ i ∈ indicesRead (CmpID m), i ≤ 21) ∧
    ((CmpVersion m).value.isSome ∧ ∀ i ∈ indicesRead (CmpVersion m), i ≤ 21) ∧
    ((ConsentScreen m).value.isSome ∧ ∀ i ∈ indicesRead (ConsentScreen m), i ≤ 21) ∧
    ((ConsentLanguage m).value.isSome ∧ ∀ i ∈ indicesRead (ConsentLanguage m), i ≤ 21) ∧
    ((VendorListVersion m).value.isSome ∧
      ∀ i ∈ indicesRead (VendorListVersion m), i ≤ 21) ∧
    ((MaxVendorID m).value.isSome ∧ ∀ i ∈ indicesRead (MaxVendorID m), i ≤ 21) ∧
    (∀ id : Purpose, 1 ≤ id.val → id.val ≤ 24 →
      (PurposeAllowed m id).value.isSome ∧
        ∀ i ∈ indicesRead (PurposeAllowed m id), i ≤ 21) ∧
    ∀ c : List Byte, 22 ≤ c.length → (∀ n, n ≤ 171 → bitAt c n = bitAt m n) →
      (Version c).value = (Version m).value ∧ (CmpID c).value = (CmpID m).value ∧
      (CmpVersion c).value = (CmpVersion m).value ∧
      (ConsentScreen c).value = (ConsentScreen m).value ∧
      (ConsentLanguage c).value = (ConsentLanguage m).value ∧
      (VendorListVersion c).value = (VendorListVersion m).value ∧
      (MaxVendorID c).value = (MaxVendorID m).value ∧
      ∀ id : Purpose, 1 ≤ id.val → id.val ≤ 24 →
        (PurposeAllowed c id).value = (PurposeAllowed m id).value := by
  obtain ⟨-, h22, -⟩ := (parseMetadata_ok_bytes b m).1 h
  have hm : 22 ≤ m.length := by
    rw [((parseMetadata_ok_bytes b m).1 h).1]; exact h22
  refine ⟨((parseMetadata_ok_bytes b m).1 h).1, hm, ?_, ?_, ?_, ?_, ?_, ?_, ?_, ?_, ?_⟩
  · rw [Version_run m (by omega)]; simp [indicesRead]
  · rw [CmpID_run m (by omega)]; simp [indicesRead]
  · rw [CmpVersion_run m (by omega)]; simp [indicesRead]
  · rw [ConsentScreen_run m (by omega)]; simp [indicesRead]
  · rw [ConsentLanguage_run m (by omega)]; simp [indicesRead]
  · rw [VendorListVersion_run m (by omega)]; simp [indicesRead]
  · rw [MaxVendorID_run m (by omega)]; simp [indicesRead]
  · intro id h1 h24
    rw [PurposeAllowed_run m id (by omega)]
    simp [indicesRead]
    omega
  · intro c hc hbits
    have hb := byteAt_eq_of_header_bits m c hbits
    have hn : byteAt c 21 / 16 = byteAt m 21 / 16 :=
      nibble_eq_of_bits m c 21 fun k hk => hbits (8 * 21 + k) (by omega)
    refine ⟨?_, ?_, ?_, ?_, ?_, ?_, ?_, ?_⟩
    · rw [Version_run m (by omega), Version_run c (by omega), hb 0 (by omega)]
    · rw [CmpID_run m (by omega), CmpID_run c (by omega), hb 9 (by omega), hb 10 (by omega),
        hb 11 (by omega)]
    · rw [CmpVersion_run m (by omega), CmpVersion_run c (by omega), hb 11 (by omega),
        hb 12 (by omega)]
    · rw [ConsentScreen_run m (by omega), ConsentScreen_run c (by omega), hb 12 (by omega),
        hb 13 (by omega)]
    · rw [ConsentLanguage_run m (by omega), ConsentLanguage_run c (by omega),
        hb 13 (by omega), hb 14 (by omega)]
    · rw [VendorListVersion_run m (by omega), VendorListVersion_run c (by omega),
        hb 15 (by omega), hb 16 (by omega)]
    · rw [MaxVendorID_run m (by omega), MaxVendorID_run c (by omega), hb 19 (by omega),
        hb 20 (by omega), hn]
    · intro id h1 h24
      rw [PurposeAllowed_run m id (by omega), PurposeAllowed_run c id (by omega),
        hbits _ (by omega)]

theorem getters_within_header_witness :
    (parseMetadata sample).value = some (Except.ok sample) ∧
      indicesRead (MaxVendorID sample) = [19, 20, 20, 21] ∧
      (∀ i ∈ indicesRead (MaxVendorID sample), i ≤ 21) ∧
      (MaxVendorID sample).value.isSome :=
  have h : (parseMetadata sample).value = some (Except.ok sample) := rfl
  have w := getters_within_header sample sample h
  ⟨h, by decide, w.2.2.2.2.2.2.2.2.1.2, w.2.2.2.2.2.2.2.2.1.1⟩

/-- C5: on a buffer of at least 22 bytes MaxVendorID returns the 16-bit number held in
the bits 156 to 171, MSB-first, which is (c[19] mod 16) * 4096 + c[20] * 16 + c[21] div 16;
the shifts and the two byte additions of the code stay below 256 and add nibbles that share
no bit, so nothing carries. -/
theorem MaxVendorID_value (b : List Byte) (h : 22 ≤ b.length) :
    (MaxVendorID b).value
        = some (byteAt b 19 % 16 * 4096 + byteAt b 20 * 16 + byteAt b 21 / 16) ∧
      (MaxVendorID b).value = some (bitsValue b 156 16) ∧
      bitsValue b 156 16 < 2 ^ 16 ∧
      ((byteAt b 19 &&& 0x0f) <<< 4 < 256 ∧
        (byteAt b 19 &&& 0x0f) <<< 4 + (byteAt b 20 &&& 0xf0) >>> 4 < 256 ∧
        (byteAt b 19 &&& 0x0f) <<< 4 + (byteAt b 20 &&& 0xf0) >>> 4
          = (byteAt b 19 &&& 0x0f) <<< 4 ||| (byteAt b 20 &&& 0xf0) >>> 4) ∧
      ((byteAt b 20 &&& 0x0f) <<< 4 < 256 ∧
        (byteAt b 20 &&& 0x0f) <<< 4 + (byteAt b 21 &&& 0xf0) >>> 4 < 256 ∧
        (byteAt b 20 &&& 0x0f) <<< 4 + (byteAt b 21 &&& 0xf0) >>> 4
          = (byteAt b 20 &&& 0x0f) <<< 4 ||| (byteAt b 21 &&& 0xf0) >>> 4) := by
  have h19 := byteAt_lt b 19
  have h20 := byteAt_lt b 20
  have h21 := byteAt_lt b 21
  have span := span_maxVendorID b
  refine ⟨by rw [MaxVendorID_run b h], by rw [MaxVendorID_run b h, span], by rw [span]; omega,
    nibble_sum_no_carry _ _ h20, nibble_sum_no_carry _ _ h21⟩

theorem MaxVendorID_value_witness :
    22 ≤ sample.length ∧ (MaxVendorID sample).value = some 500 ∧
      bitsValue sample 156 16 = 500 :=
  ⟨by decide, (MaxVendorID_value sample (by decide)).1, by decide⟩

/-- C6: on a buffer of at least 22 bytes and for a purpose id from 1 to 24,
PurposeAllowed returns whether bit 131 + id of the buffer, counted MSB-first from the top
bit of byte 0, is 1; purpose 1 is bit 132 and purpose 24 is bit 155. -/
theorem PurposeAllowed_bit (b : List Byte) (h : 22 ≤ b.length) (id : Purpose)
    (h1 : 1 ≤ id.val) (h24 : id.val ≤ 24) :
    (PurposeAllowed b id).value = some (bitAt b (131 + id.val)) ∧
      ((PurposeAllowed b id).value = some true ↔
        byteAt b ((131 + id.val) / 8) / 2 ^ (7 - (131 + id.val) % 8) % 2 = 1) ∧
      (PurposeAllowed b 1).value = some (bitAt b 132) ∧
      (PurposeAllowed b 24).value = some (bitAt b 155) := by
  have e : (PurposeAllowed b id).value = some (bitAt b (131 + id.val)) := by
    rw [PurposeAllowed_run b id (by omega), Nat.add_comm]
  refine ⟨e, ?_, ?_, ?_⟩
  · rw [e]
    simp [bitAt]
  · rw [PurposeAllowed_run b 1 (by show (1 + 131) / 8 < b.length; omega)]
    rfl
  · rw [PurposeAllowed_run b 24 (by show (24 + 131) / 8 < b.length; omega)]
    rfl

theorem PurposeAllowed_bit_witness :
    22 ≤ sample.length ∧ (PurposeAllowed sample 1).value = some false ∧
      (PurposeAllowed sample 5).value = some true ∧
      (PurposeAllowed sample 24).value = some false ∧
      bitAt sample 132 = false ∧ bitAt sample 136 = true :=
  ⟨by decide, (PurposeAllowed_bit sample (by decide) 1 (by decide) (by decide)).1,
    (PurposeAllowed_bit sample (by decide) 5 (by decide) (by decide)).1,
    (PurposeAllowed_bit sample (by decide) 24 (by decide) (by decide)).1, by decide, by decide⟩

/-- C7: on a buffer of at least 22 bytes CmpID returns the 12-bit number held in the bits
78 to 89, MSB-first, which is (c[9] mod 4) * 1024 + c[10] * 4 + c[11] div 64. -/
theorem CmpID_value (b : List Byte) (h : 22 ≤ b.length) :
    (CmpID b).value = some (byteAt b 9 % 4 * 1024 + byteAt b 10 * 4 + byteAt b 11 / 64) ∧
      (CmpID b).value = some (bitsValue b 78 12) ∧ bitsValue b 78 12 < 2 ^ 12 := by
  have h9 := byteAt_lt b 9
  have h10 := byteAt_lt b 10
  have h11 := byteAt_lt b 11
  have span := span_cmpID b
  exact ⟨by rw [CmpID_run b (by omega)], by rw [CmpID_run b (by omega), span],
    by rw [span]; omega⟩

theorem CmpID_value_witness :
    22 ≤ sample.length ∧ (CmpID sample).value = some 3 ∧ bitsValue sample 78 12 = 3 :=
  ⟨by decide, (CmpID_value sample (by decide)).1, by decide⟩

/-- C8: on a buffer of at least 22 bytes CmpVersion returns the 12-bit number held in the
bits 90 to 101, MSB-first, which is (c[11] mod 64) * 64 + c[12] div 4. -/
theorem CmpVersion_value (b : List Byte) (h : 22 ≤ b.length) :
    (CmpVersion b).value = some (byteAt b 11 % 64 * 64 + byteAt b 12 / 4) ∧
      (CmpVersion b).value = some (bitsValue b 90 12) ∧ bitsValue b 90 12 < 2 ^ 12 := by
  have h11 := byteAt_lt b 11
  have h12 := byteAt_lt b 12
  have span := span_cmpVersion b
  exact ⟨by rw [CmpVersion_run b (by omega)], by rw [CmpVersion_run b (by omega), span],
    by rw [span]; omega⟩

theorem CmpVersion_value_witness :
    22 ≤ sample.length ∧ (CmpVersion sample).value = some 8 ∧ bitsValue sample 90 12 = 8 :=
  ⟨by decide, (CmpVersion_value sample (by decide)).1, by decide⟩

/-- C9: on a buffer of at least 22 bytes VendorListVersion returns the 12-bit number held
in the bits 120 to 131, MSB-first, which is c[15] * 16 + c[16] div 16. -/
theorem VendorListVersion_value (b : List Byte) (h : 22 ≤ b.length) :
    (VendorListVersion b).value = some (byteAt b 15 * 16 + byteAt b 16 / 16) ∧
      (VendorListVersion b).value = some (bitsValue b 120 12) ∧
      bitsValue b 120 12 < 2 ^ 12 := by
  have h15 := byteAt_lt b 15
  have h16 := byteAt_lt b 16
  have span := span_vendorListVersion b
  exact ⟨by rw [VendorListVersion_run b (by omega)],
    by rw [VendorListVersion_run b (by omega), span], by rw [span]; omega⟩

theorem VendorListVersion_value_witness :
    22 ≤ sample.length ∧ (VendorListVersion sample).value = some 15 ∧
      bitsValue sample 120 12 = 15 :=
  ⟨by decide, (VendorListVersion_value sample (by decide)).1, by decide⟩

/-- C10: on a non-empty buffer Version returns the 6-bit number held in the bits 0 to 5,
MSB-first, which is c[0] div 4; buffers that differ in the bits 6 and 7 of byte 0 only, or
anywhere past the bit 5, give the same Version. -/
theorem Version_value (b : List Byte) (h : b ≠ []) :
    (Version b).value = some (byteAt b 0 / 4) ∧
      (Version b).value = some (bitsValue b 0 6) ∧ bitsValue b 0 6 < 2 ^ 6 ∧
      ∀ c : List Byte, c ≠ [] → (∀ n, n < 6 → bitAt c n = bitAt b n) →
        (Version c).value = (Version b).value := by
  have len : ∀ c : List Byte, c ≠ [] → 1 ≤ c.length := fun c hc =>
    Nat.succ_le_of_lt (List.length_pos.2 hc)
  have span := span_version
  refine ⟨by rw [Version_run b (len b h)], by rw [Version_run b (len b h), span],
    by rw [span]; have := byteAt_lt b 0; omega, ?_⟩
  intro c hc hbits
  rw [Version_run b (len b h), Version_run c (len c hc), ← span, ← span,
    bitsValue_congr b c 0 6 fun j hj => by rw [Nat.zero_add]; exact hbits j hj]

theorem Version_value_witness :
    sample ≠ [] ∧ (Version sample).value = some 1 ∧ bitsValue sample 0 6 = 1 ∧
      (Version [7]).value = (Version [4]).value :=
  ⟨by decide, (Version_value sample (by decide)).1, by decide,
    (Version_value [4] (by decide)).2.2.2 [7] (by decide) (by decide)⟩

/-- C11: on a buffer of at least 22 bytes ConsentScreen returns the 6-bit number held in
the bits 102 to 107, MSB-first, which is (c[12] mod 4) * 16 + c[13] div 16. -/
theorem ConsentScreen_value (b : List Byte) (h : 22 ≤ b.length) :
    (ConsentScreen b).value = some (byteAt b 12 % 4 * 16 + byteAt b 13 / 16) ∧
      (ConsentScreen b).value = some (bitsValue b 102 6) ∧ bitsValue b 102 6 < 2 ^ 6 := by
  have h13 := byteAt_lt b 13
  have span := span_consentScreen b
  exact ⟨by rw [ConsentScreen_run b (by omega)], by rw [ConsentScreen_run b (by omega), span],
    by rw [span]; omega⟩

theorem ConsentScreen_value_witness :
    22 ≤ sample.length ∧ (ConsentScreen sample).value = some 1 ∧
      bitsValue sample 102 6 = 1 :=
  ⟨by decide, (ConsentScreen_value sample (by decide)).1, by decide⟩

/-- C12: on a buffer of at least 22 bytes ConsentLanguage returns exactly two bytes, 65
plus the 6-bit value of the bits 108 to 113 and 65 plus the 6-bit value of the bits 114 to
119; both lie between 65 and 128, the sums of the code stay below 256, and when both 6-bit
values are at most 25 both bytes are capital letters. -/
theorem ConsentLanguage_value (b : List Byte) (h : 22 ≤ b.length) :
    (ConsentLanguage b).value = some [65 + bitsValue b 108 6, 65 + bitsValue b 114 6] ∧
      (∃ s, (ConsentLanguage b).value = some s ∧ s.length = 2) ∧
      bitsValue b 108 6 < 2 ^ 6 ∧ bitsValue b 114 6 < 2 ^ 6 ∧
      (65 ≤ 65 + bitsValue b 108 6 ∧ 65 + bitsValue b 108 6 ≤ 128) ∧
      (65 ≤ 65 + bitsValue b 114 6 ∧ 65 + bitsValue b 114 6 ≤ 128) ∧
      (((byteAt b 13 &&& 0x0f) <<< 2) % 256 ||| (byteAt b 14 >>> 6)) + 65 < 256 ∧
      (byteAt b 14 &&& 0x3f) + 65 < 256 ∧
      (bitsValue b 108 6 ≤ 25 → bitsValue b 114 6 ≤ 25 →
        ('A'.toNat ≤ 65 + bitsValue b 108 6 ∧ 65 + bitsValue b 108 6 ≤ 'Z'.toNat) ∧
        ('A'.toNat ≤ 65 + bitsValue b 114 6 ∧ 65 + bitsValue b 114 6 ≤ 'Z'.toNat)) := by
  have h13 := byteAt_lt b 13
  have h14 := byteAt_lt b 14
  have e := ConsentLanguage_spans b (by omega)
  have hl := span_languageLeft b
  have hr := span_languageRight b
  have hA : 'A'.toNat = 65 := by decide
  have hZ : 'Z'.toNat = 90 := by decide
  refine ⟨e, ⟨_, e, rfl⟩, by omega, by omega, by omega, by omega, ?_, ?_, ?_⟩
  · rw [consentLanguage_left _ _ h14]; omega
  · rw [and63]; omega
  · intro h1 h2
    rw [hA, hZ]
    omega

theorem ConsentLanguage_value_witness :
    22 ≤ sample.length ∧ (ConsentLanguage sample).value = some [67, 78] ∧
      bitsValue sample 108 6 = 2 ∧ bitsValue sample 114 6 = 13 ∧
      'C'.toNat = 67 ∧ 'N'.toNat = 78 :=
  ⟨by decide, (ConsentLanguage_value sample (by decide)).1, by decide, by decide, by decide,
    by decide⟩

/-- C13: for every two capital letters X and Y and every buffer of at least 22 bytes whose
bits 108 to 113 hold X - 'A' and whose bits 114 to 119 hold Y - 'A', ConsentLanguage
returns the two bytes X, Y. -/
theorem ConsentLanguage_roundtrip (X Y : Nat) (hX : 'A'.toNat ≤ X ∧ X ≤ 'Z'.toNat)
    (hY : 'A'.toNat ≤ Y ∧ Y ≤ 'Z'.toNat) (b : List Byte) (h : 22 ≤ b.length)
    (hl : bitsValue b 108 6 = X - 'A'.toNat) (hr : bitsValue b 114 6 = Y - 'A'.toNat) :
    (ConsentLanguage b).value = some [X, Y] := by
  have hA : 'A'.toNat = 65 := by decide
  rw [hA] at hX hY hl hr
  rw [ConsentLanguage_spans b (by omega), hl, hr, Nat.add_sub_cancel' hX.1,
    Nat.add_sub_cancel' hY.1]

set_option maxRecDepth 100000 in
theorem ConsentLanguage_roundtrip_witness :
    (22 ≤ sample.length ∧ bitsValue sample 108 6 = 'C'.toNat - 'A'.toNat ∧
      bitsValue sample 114 6 = 'N'.toNat - 'A'.toNat ∧
      (ConsentLanguage sample).value = some ['C'.toNat, 'N'.toNat]) ∧
    ∀ x y : Fin 26,
      (languageBuffer (Fin.ofNat x.val) (Fin.ofNat y.val)).length = 22 ∧
      bitsValue (languageBuffer (Fin.ofNat x.val) (Fin.ofNat y.val)) 108 6 = x.val ∧
      bitsValue (languageBuffer (Fin.ofNat x.val) (Fin.ofNat y.val)) 114 6 = y.val ∧
      (ConsentLanguage (languageBuffer (Fin.ofNat x.val) (Fin.ofNat y.val))).value
        = some ['A'.toNat + x.val, 'A'.toNat + y.val] :=
  ⟨⟨by decide, by decide, by decide,
    ConsentLanguage_roundtrip 'C'.toNat 'N'.toNat (by decide) (by decide) sample (by decide)
      (by decide) (by decide)⟩, by decide⟩

/-- A 22-byte buffer whose Version is 0 and which parseMetadata rejects with the
invalid-MaxVendorID error, not the invalid-Version error. -/
theorem parseMetadata_version_order_counterexample :
    22 ≤ sampleAllZero.length ∧ (Version sampleAllZero).value = some 0 ∧
      (parseMetadata sampleAllZero).value
        = some (Except.error (ParseError.invalidMaxVendorID 0)) ∧
      ∀ g, (parseMetadata sampleAllZero).value ≠ some (Except.error (ParseError.invalidVersion g)) := by
  have e : (parseMetadata sampleAllZero).value
      = some (Except.error (ParseError.invalidMaxVendorID 0)) := rfl
  refine ⟨by decide, by decide, e, ?_⟩
  intro g
  rw [e]
  simp

/-- C14 (amended): on a buffer of at least 22 bytes whose Version decodes to less than 1,
parseMetadata fails: with the invalid-Version error when MaxVendorID decodes to at least 1,
and with the invalid-MaxVendorID error when it decodes to 0. -/
theorem parseMetadata_zero_version (b : List Byte) (h : 22 ≤ b.length) (ver : Nat)
    (hv : (Version b).value = some ver) (hlt : ver < 1) :
    (∀ m, (parseMetadata b).value ≠ some (Except.ok m)) ∧
      ((∃ mv, (MaxVendorID b).value = some mv ∧ 1 ≤ mv) →
        (parseMetadata b).value = some (Except.error (ParseError.invalidVersion 0))) ∧
      ((MaxVendorID b).value = some 0 →
        (parseMetadata b).value = some (Except.error (ParseError.invalidMaxVendorID 0))) := by
  rw [parseMetadata_bytes b h, MaxVendorID_run b h]
  rw [Version_run b (by omega)] at hv
  simp only [Option.some.injEq] at hv
  rw [hv]
  generalize byteAt b 19 % 16 * 4096 + byteAt b 20 * 16 + byteAt b 21 / 16 = mv
  have h0 : ver = 0 := by omega
  subst h0
  refine ⟨?_, ?_, ?_⟩
  · intro m
    split_ifs <;> simp
  · rintro ⟨v, hv1, hv2⟩
    simp only [Option.some.injEq] at hv1
    subst hv1
    rw [if_neg (by omega), if_pos (by omega)]
  · intro hz
    simp only [Option.some.injEq] at hz
    subst hz
    rw [if_pos (by omega)]

theorem parseMetadata_zero_version_witness :
    22 ≤ sampleZeroVersion.length ∧ (Version sampleZeroVersion).value = some 0 ∧
      (MaxVendorID sampleZeroVersion).value = some 500 ∧
      (parseMetadata sampleZeroVersion).value
        = some (Except.error (ParseError.invalidVersion 0)) :=
  ⟨by decide, by decide, by decide,
    (parseMetadata_zero_version sampleZeroVersion (by decide) 0 (by decide) (by decide)).2.1
      ⟨500, by decide, by decide⟩⟩

/-- A 22-byte buffer whose VendorListVersion is 0 and which parseMetadata rejects with the
invalid-Version error, not the invalid-VendorListVersion error. -/
theorem parseMetadata_vendorListVersion_order_counterexample :
    22 ≤ sampleZeroVersion.length ∧ (VendorListVersion sampleZeroVersion).value = some 0 ∧
      (parseMetadata sampleZeroVersion).value
        = some (Except.error (ParseError.invalidVersion 0)) ∧
      (parseMetadata sampleZeroVersion).value
        ≠ some (Except.error ParseError.invalidVendorListVersion) := by
  have e : (parseMetadata sampleZeroVersion).value
      = some (Except.error (ParseError.invalidVersion 0)) := rfl
  refine ⟨by decide, by decide, e, ?_⟩
  rw [e]
  simp

/-- C15 (amended): on a buffer of at least 22 bytes whose VendorListVersion decodes to 0,
parseMetadata fails: with the invalid-VendorListVersion error when MaxVendorID and Version
both decode to at least 1, with the invalid-MaxVendorID error when MaxVendorID decodes to
0, and with the invalid-Version error when MaxVendorID is at least 1 and Version is 0. -/
theorem parseMetadata_zero_vendorListVersion (b : List Byte) (h : 22 ≤ b.length)
    (hz : (VendorListVersion b).value = some 0) :
    (∀ m, (parseMetadata b).value ≠ some (Except.ok m)) ∧
      ((∃ mv, (MaxVendorID b).value = some mv ∧ 1 ≤ mv) →
        (∃ v, (Version b).value = some v ∧ 1 ≤ v) →
        (parseMetadata b).value = some (Except.error ParseError.invalidVendorListVersion)) ∧
      ((MaxVendorID b).value = some 0 →
        (parseMetadata b).value = some (Except.error (ParseError.invalidMaxVendorID 0))) ∧
      ((∃ mv, (MaxVendorID b).value = some mv ∧ 1 ≤ mv) → (Version b).value = some 0 →
        (parseMetadata b).value = some (Except.error (ParseError.invalidVersion 0))) := by
  rw [parseMetadata_bytes b h, MaxVendorID_run b h, Version_run b (by omega)]
  rw [VendorListVersion_run b (by omega)] at hz
  simp only [Option.some.injEq] at hz
  rw [hz]
  generalize byteAt b 19 % 16 * 4096 + byteAt b 20 * 16 + byteAt b 21 / 16 = mv
  generalize byteAt b 0 / 4 = ver
  refine ⟨?_, ?_, ?_, ?_⟩
  · intro m
    split_ifs <;> simp_all
  · rintro ⟨v, hv1, hv2⟩ ⟨w, hw1, hw2⟩
    simp only [Option.some.injEq] at hv1 hw1
    subst hv1 hw1
    rw [if_neg (by omega), if_neg (by omega), if_pos rfl]
  · intro h0
    simp only [Option.some.injEq] at h0
    subst h0
    rw [if_pos (by omega)]
  · rintro ⟨v, hv1, hv2⟩ h0
    simp only [Option.some.injEq] at hv1 h0
    subst hv1 h0
    rw [if_neg (by omega), if_pos (by omega)]

theorem parseMetadata_zero_vendorListVersion_witness :
    22 ≤ sampleZeroVendorList.length ∧
      (VendorListVersion sampleZeroVendorList).value = some 0 ∧
      (MaxVendorID sampleZeroVendorList).value = some 500 ∧
      (Version sampleZeroVendorList).value = some 1 ∧
      (parseMetadata sampleZeroVendorList).value
        = some (Except.error ParseError.invalidVendorListVersion) :=
  ⟨by decide, by decide, by decide, by decide,
    (parseMetadata_zero_vendorListVersion sampleZeroVendorList (by decide) (by decide)).2.1
      ⟨500, by decide, by decide⟩ ⟨1, by decide, by decide⟩⟩

/-- C16: parseMetadata reports the first violated check in the order length, MaxVendorID,
Version, VendorListVersion: too-short iff the length is below 22; invalid-MaxVendorID iff
the length is at least 22 and MaxVendorID is 0; invalid-Version iff moreover MaxVendorID is
at least 1 and Version is 0; invalid-VendorListVersion iff moreover Version is at least 1
and VendorListVersion is 0.  The run never panics. -/
theorem parseMetadata_first_violation (b : List Byte) :
    (parseMetadata b).value.isSome ∧
    (∀ n, (parseMetadata b).value = some (Except.error (ParseError.tooShort n)) ↔
      b.length < 22 ∧ n = b.length) ∧
    (∀ g, (parseMetadata b).value = some (Except.error (ParseError.invalidMaxVendorID g)) ↔
      22 ≤ b.length ∧ (MaxVendorID b).value = some 0 ∧ g = 0) ∧
    (∀ g, (parseMetadata b).value = some (Except.error (ParseError.invalidVersion g)) ↔
      22 ≤ b.length ∧ (∃ mv, (MaxVendorID b).value = some mv ∧ 1 ≤ mv) ∧
        (Version b).value = some 0 ∧ g = 0) ∧
    ((parseMetadata b).value = some (Except.error ParseError.invalidVendorListVersion) ↔
      22 ≤ b.length ∧ (∃ mv, (MaxVendorID b).value = some mv ∧ 1 ≤ mv) ∧
        (∃ v, (Version b).value = some v ∧ 1 ≤ v) ∧
        (VendorListVersion b).value = some 0) := by
  by_cases h : 22 ≤ b.length
  · rw [parseMetadata_bytes b h, MaxVendorID_run b h, Version_run b (by omega),
      VendorListVersion_run b (by omega)]
    generalize byteAt b 19 % 16 * 4096 + byteAt b 20 * 16 + byteAt b 21 / 16 = mv
    generalize byteAt b 0 / 4 = ver
    generalize byteAt b 15 * 16 + byteAt b 16 / 16 = vlv
    refine ⟨rfl, ?_, ?_, ?_, ?_⟩
    · intro n
      split_ifs <;> simp <;> omega
    · intro g
      split_ifs <;> simp <;> omega
    · intro g
      split_ifs <;> simp <;> omega
    · split_ifs <;> simp <;> omega
  · rw [parseMetadata_short b (by omega)]
    refine ⟨rfl, ?_, ?_, ?_, ?_⟩
    · intro n
      simp
      omega
    · intro g
      simp
      omega
    · intro g
      simp
      omega
    · simp
      omega

theorem parseMetadata_first_violation_witness :
    (parseMetadata sampleZeroVersion).value
        = some (Except.error (ParseError.invalidVersion 0)) ∧
      (parseMetadata sampleZeroVendorList).value
        = some (Except.error ParseError.invalidVendorListVersion) :=
  ⟨((parseMetadata_first_violation sampleZeroVersion).2.2.2.1 0).2
      ⟨by decide, ⟨500, by decide, by decide⟩, by decide, rfl⟩,
    (parseMetadata_first_violation sampleZeroVendorList).2.2.2.2.2
      ⟨by decide, ⟨500, by decide, by decide⟩, ⟨1, by decide, by decide⟩, by decide⟩⟩

/-- C17: on a buffer of at least 22 bytes, appending bytes changes the value of no getter
and of no PurposeAllowed for the ids 1 to 24; parseMetadata
succeeds on the longer buffer iff it succeeds on the shorter one, and fails with the same
error. -/
theorem metadata_first_22_bytes (b s : List Byte) (h : 22 ≤ b.length) :
    (Version (b ++ s)).value = (Version b).value ∧
      (CmpID (b ++ s)).value = (CmpID b).value ∧
      (CmpVersion (b ++ s)).value = (CmpVersion b).value ∧
      (ConsentScreen (b ++ s)).value = (ConsentScreen b).value ∧
      (ConsentLanguage (b ++ s)).value = (ConsentLanguage b).value ∧
      (VendorListVersion (b ++ s)).value = (VendorListVersion b).value ∧
      (MaxVendorID (b ++ s)).value = (MaxVendorID b).value ∧
      (∀ id : Purpose, 1 ≤ id.val → id.val ≤ 24 →
        (PurposeAllowed (b ++ s) id).value = (PurposeAllowed b id).value) ∧
      ((∃ m, (parseMetadata (b ++ s)).value = some (Except.ok m)) ↔
        ∃ m, (parseMetadata b).value = some (Except.ok m)) ∧
      ∀ err, (parseMetadata (b ++ s)).value = some (Except.error err) ↔
        (parseMetadata b).value = some (Except.error err) := by
  have hc : 22 ≤ (b ++ s).length := by
    rw [List.length_append]; omega
  have e : (b ++ s).take 22 = b.take 22 := List.take_append_of_le_length h
  obtain ⟨h1, h2, h3, h4, h5, h6, h7, h8, h9, h10⟩ := runs_eq_of_take_eq b (b ++ s) h hc e
  refine ⟨by rw [h1], by rw [h2], by rw [h3], by rw [h4], by rw [h5], by rw [h6], by rw [h7],
    fun id _ h24 => by rw [h8 id (by omega)], ?_, h10⟩
  constructor
  · rintro ⟨m, hm⟩
    have hm2 := ((parseMetadata_ok_bytes (b ++ s) m).1 hm).1
    subst hm2
    exact ⟨b, h9.1 hm⟩
  · rintro ⟨m, hm⟩
    have hm2 := ((parseMetadata_ok_bytes b m).1 hm).1
    subst hm2
    exact ⟨m ++ s, h9.2 hm⟩

theorem metadata_first_22_bytes_witness :
    22 ≤ sampleZeroVendorList.length ∧
      (MaxVendorID (sampleZeroVendorList ++ sampleShort)).value = some 500 ∧
      (MaxVendorID sampleZeroVendorList).value = some 500 ∧
      (parseMetadata (sampleZeroVendorList ++ sampleShort)).value
        = some (Except.error ParseError.invalidVendorListVersion) :=
  ⟨by decide,
    (metadata_first_22_bytes sampleZeroVendorList sampleShort (by decide)).2.2.2.2.2.2.1.trans
      (by decide),
    by decide,
    ((metadata_first_22_bytes sampleZeroVendorList sampleShort (by decide)).2.2.2.2.2.2.2.2.2
      ParseError.invalidVendorListVersion).2 rfl⟩

/-- C18: on a buffer of at least 22 bytes and for an id from 25 to 40, PurposeAllowed
returns bit (id - 25), counted from the most significant bit, of the 16-bit MaxVendorID: it
reads the bit 131 + id, one of the bits 156 to 171.  Hence on a buffer that parseMetadata
accepts PurposeAllowed returns true for some id from 25 to 40. -/
theorem PurposeAllowed_reads_maxVendorID (b : List Byte) (h : 22 ≤ b.length) :
    (∀ id : Purpose, 25 ≤ id.val → id.val ≤ 40 →
      ∃ mv, (MaxVendorID b).value = some mv ∧
        (PurposeAllowed b id).value = some (mv / 2 ^ (15 - (id.val - 25)) % 2 == 1) ∧
        (PurposeAllowed b id).value = some (bitAt b (131 + id.val)) ∧
        156 ≤ 131 + id.val ∧ 131 + id.val ≤ 171) ∧
    ((∃ m, (parseMetadata b).value = some (Except.ok m)) →
      ∃ id : Purpose, 25 ≤ id.val ∧ id.val ≤ 40 ∧
        (PurposeAllowed b id).value = some true) := by
  constructor
  · intro id h25 h40
    refine ⟨bitsValue b 156 16, by rw [MaxVendorID_run b h, span_maxVendorID], ?_, ?_,
      by omega, by omega⟩
    · rw [PurposeAllowed_run b id (by omega),
        show 15 - (id.val - 25) = 16 - 1 - (id.val - 25) by omega,
        bitsValue_bit b 156 16 (id.val - 25) (by omega), toNat_beq_one,
        show 156 + (id.val - 25) = id.val + 131 by omega]
    · rw [PurposeAllowed_run b id (by omega), Nat.add_comm]
  · rintro ⟨m, hm⟩
    obtain ⟨-, -, hmv, -⟩ := (parseMetadata_ok_bytes b m).1 hm
    rw [← span_maxVendorID] at hmv
    obtain ⟨j, hj, hbit⟩ := exists_bit_of_bitsValue_pos b 156 16 (by omega)
    refine ⟨⟨25 + j, by omega⟩, by show 25 ≤ 25 + j; omega, by show 25 + j ≤ 40; omega, ?_⟩
    rw [PurposeAllowed_run b ⟨25 + j, by omega⟩ (by show (25 + j + 131) / 8 < b.length; omega)]
    show some (bitAt b (25 + j + 131)) = some true
    rw [show 25 + j + 131 = 156 + j by omega, hbit]

theorem PurposeAllowed_reads_maxVendorID_witness :
    22 ≤ sample.length ∧ (MaxVendorID sample).value = some 500 ∧
      (PurposeAllowed sample 32).value = some true ∧
      (PurposeAllowed sample 25).value = some false ∧
      ∃ id : Purpose, 25 ≤ id.val ∧ id.val ≤ 40 ∧ (PurposeAllowed sample id).value = some true :=
  ⟨by decide, by decide, by decide, by decide,
    (PurposeAllowed_reads_maxVendorID sample (by decide)).2 ⟨sample, rfl⟩⟩

/-- C19: on a buffer of exactly 22 bytes PurposeAllowed reads the byte (id + 131) div 8,
the sum being taken without wrapping at 8 bits; that byte is inside the buffer iff id is at
most 44 (bit index below 176), in which case the bit 131 + id is returned; for every id
from 45 to 255 the byte index is 22 or more and the run panics. -/
theorem PurposeAllowed_not_total (b : List Byte) (h : b.length = 22) (id : Purpose) :
    indicesRead (PurposeAllowed b id) = [(id.val + 131) / 8] ∧
      ((id.val + 131) / 8 < b.length ↔ id.val ≤ 44) ∧
      (id.val + 131 < 176 ↔ id.val ≤ 44) ∧
      ((PurposeAllowed b id).value.isSome ↔ id.val ≤ 44) ∧
      (id.val ≤ 44 → (PurposeAllowed b id).value = some (bitAt b (id.val + 131))) ∧
      (45 ≤ id.val → id.val ≤ 255 ∧ 22 ≤ (id.val + 131) / 8 ∧
        (PurposeAllowed b id).value = none) := by
  have hid := id.isLt
  by_cases c : id.val ≤ 44
  · rw [PurposeAllowed_run b id (by omega)]
    refine ⟨rfl, by omega, by omega, by simp [c], fun _ => rfl, fun h45 => by omega⟩
  · rw [PurposeAllowed_run_out b id (by omega)]
    refine ⟨rfl, by omega, by omega, by simp [c], fun h44 => by omega,
      fun _ => ⟨by omega, by omega, rfl⟩⟩

theorem PurposeAllowed_not_total_witness :
    sampleZeroVendorList.length = 22 ∧
      indicesRead (PurposeAllowed sampleZeroVendorList 125) = [32] ∧
      (PurposeAllowed sampleZeroVendorList 125).value = none ∧
      (PurposeAllowed sampleZeroVendorList 45).value = none ∧
      (PurposeAllowed sampleZeroVendorList 44).value = some false :=
  ⟨by decide, (PurposeAllowed_not_total sampleZeroVendorList (by decide) 125).1,
    ((PurposeAllowed_not_total sampleZeroVendorList (by decide) 125).2.2.2.2.2
      (by decide)).2.2,
    ((PurposeAllowed_not_total sampleZeroVendorList (by decide) 45).2.2.2.2.2
      (by decide)).2.2,
    (PurposeAllowed_not_total sampleZeroVendorList (by decide) 44).2.2.2.2.1 (by decide)⟩

end vendorconsent
